import Mathlib

/-!
Verification of FortnoxAccountReconciliation against its specification.

Shallow embedding of the three source modules:
* `converter.py`  — numeric parsing, record transformation, CSV export;
* `riksbanken.py` — FX rate resolution against the Riksbanken SWEA API;
* `app.py`        — the date-range filter applied before export.

Conventions of the embedding:
* Python strings are Lean `String` / `List Char`.
* Python floats are modelled as `ℚ` (so the rational `-0` coincides with `0`,
  and IEEE infinities are not modelled); a pandas `NaN` cell value is `Option.none`.
* The fallible pandas date conversion is an `Except`; the coercing numeric
  conversion (`errors="coerce"`) is an `Option`.
* The HTTP layer of `riksbanken.py` is a function `String → Response` supplied
  by the caller (a fake network layer), and the list of URLs the code would
  request is computed by a parallel definition, so that "no network call" is a
  provable statement.
-/

/-- A calendar date, as in Python's `datetime.date` (year, month, day). -/
structure CalDate where
  year : ℕ
  month : ℕ
  day : ℕ
deriving DecidableEq, Repr

/-- Python `date` comparison `a <= b`: lexicographic on (year, month, day). -/
def dateLe (a b : CalDate) : Bool :=
  decide (a.year < b.year) ||
    (decide (a.year = b.year) &&
      (decide (a.month < b.month) ||
        (decide (a.month = b.month) && decide (a.day ≤ b.day))))

theorem dateLe_refl (a : CalDate) : dateLe a a = true := by
  simp [dateLe]

theorem dateLe_trans {a b c : CalDate} (h1 : dateLe a b = true) (h2 : dateLe b c = true) :
    dateLe a c = true := by
  simp only [dateLe, Bool.or_eq_true, Bool.and_eq_true, decide_eq_true_eq] at *
  omega

theorem dateLe_total (a b : CalDate) : dateLe a b = true ∨ dateLe b a = true := by
  simp only [dateLe, Bool.or_eq_true, Bool.and_eq_true, decide_eq_true_eq]
  omega

/-- The character for a decimal digit: `digitChar k` renders `k % 10`. -/
def digitChar (k : ℕ) : Char := Char.ofNat (48 + k % 10)

theorem digitChar_isDigit (k : ℕ) : (digitChar k).isDigit = true := by
  unfold digitChar
  have h : k % 10 < 10 := Nat.mod_lt _ (by omega)
  set r := k % 10 with hr
  interval_cases r <;> decide

/-- Decimal digits of a natural number, most significant first. -/
def natDigits (n : ℕ) : List Char :=
  if n < 10 then [digitChar n]
  else natDigits (n / 10) ++ [digitChar n]
termination_by n
decreasing_by exact Nat.div_lt_self (by omega) (by omega)

theorem natDigits_all_digits (n : ℕ) : ∀ c ∈ natDigits n, c.isDigit = true := by
  induction n using Nat.strong_induction_on with
  | _ n ih =>
    intro c hc
    unfold natDigits at hc
    by_cases h : n < 10
    · simp [h] at hc
      subst hc; exact digitChar_isDigit n
    · simp [h] at hc
      rcases hc with hc | hc
      · exact ih (n / 10) (Nat.div_lt_self (by omega) (by omega)) c hc
      · subst hc; exact digitChar_isDigit n

/-- Two-digit zero-padded rendering (strftime `%m`/`%d`, `f"{..:02d}"`). -/
def render2 (n : ℕ) : List Char := [digitChar (n / 10), digitChar n]

/-- Four-digit zero-padded rendering (strftime `%Y`). -/
def render4 (n : ℕ) : List Char :=
  [digitChar (n / 1000), digitChar (n / 100), digitChar (n / 10), digitChar n]

/-- Value of a list of decimal digit characters (no validation). -/
def digitsVal (cs : List Char) : ℕ :=
  cs.foldl (fun a c => a * 10 + (c.toNat - 48)) 0

/-- Whether every character is a decimal digit. -/
def allDigits (cs : List Char) : Bool := cs.all (·.isDigit)

/-- Python `str.replace(a, b)` for single characters. -/
def replaceChar (a b : Char) (l : List Char) : List Char :=
  l.map (fun c => if c = a then b else c)

/-- Python `str.replace(a, "")` for a single character. -/
def removeChar (a : Char) (l : List Char) : List Char :=
  l.filter (fun c => decide (c ≠ a))

/-- Split at the first character satisfying `p`: returns the part before it and,
when found, the part after it. -/
def splitAtFirst (p : Char → Bool) : List Char → List Char × Option (List Char)
  | [] => ([], none)
  | c :: r =>
    if p c then ([], some r)
    else
      let s := splitAtFirst p r
      (c :: s.1, s.2)

/-- Split on every occurrence of `sep` (like Python `str.split(sep)`). -/
def splitOnChar (sep : Char) : List Char → List (List Char)
  | [] => [[]]
  | c :: r =>
    let rest := splitOnChar sep r
    if c = sep then [] :: rest
    else
      match rest with
      | [] => [[c]]
      | h :: t => (c :: h) :: t

/-- Python `str.strip()`: drop leading and trailing whitespace. -/
def stripChars (l : List Char) : List Char :=
  ((l.dropWhile Char.isWhitespace).reverse.dropWhile Char.isWhitespace).reverse

/-! ## Numeric Parser (`converter._parse_numeric`) -/

/-- The normalization pipeline of `_parse_numeric`, applied in the code's order:
Unicode minus → `-`, en-dash → `-`, delete non-breaking space, delete regular
space, comma → period (`.str.replace` chain of `converter.py` lines 12–16). -/
def normalizeNumeric (l : List Char) : List Char :=
  replaceChar ',' '.'
    (removeChar ' '
      (removeChar '\u00A0'
        (replaceChar '\u2013' '-'
          (replaceChar '\u2212' '-' l))))

/-- The per-character effect of `normalizeNumeric`. -/
def normStep (c : Char) : Option Char :=
  let c1 := if c = '\u2212' then '-' else c
  let c2 := if c1 = '\u2013' then '-' else c1
  if c2 = '\u00A0' ∨ c2 = ' ' then none
  else if c2 = ',' then some '.' else some c2

theorem normalizeNumeric_eq_filterMap (l : List Char) :
    normalizeNumeric l = l.filterMap normStep := by
  induction l with
  | nil => rfl
  | cons c l ih =>
    simp only [normalizeNumeric, replaceChar, removeChar, List.map_cons, List.filter_cons,
      List.filterMap_cons, normStep] at *
    by_cases h1 : c = '\u2212' <;> by_cases h2 : c = '\u2013' <;>
      by_cases h3 : c = '\u00A0' <;> by_cases h4 : c = ' ' <;> by_cases h5 : c = ',' <;>
      simp_all

theorem normStep_idem {c c' : Char} (h : normStep c = some c') : normStep c' = some c' := by
  unfold normStep at *
  by_cases h1 : c = '\u2212' <;> by_cases h2 : c = '\u2013' <;>
    by_cases h3 : c = '\u00A0' <;> by_cases h4 : c = ' ' <;> by_cases h5 : c = ',' <;>
    simp_all <;> subst h <;> simp_all

theorem normStep_bind (c : Char) : (normStep c).bind normStep = normStep c := by
  cases h : normStep c with
  | none => rfl
  | some c' => simpa using normStep_idem h

theorem normalizeNumeric_idem (l : List Char) :
    normalizeNumeric (normalizeNumeric l) = normalizeNumeric l := by
  rw [normalizeNumeric_eq_filterMap, normalizeNumeric_eq_filterMap, List.filterMap_filterMap]
  induction l with
  | nil => rfl
  | cons c l ih =>
    rw [List.filterMap_cons, List.filterMap_cons, normStep_bind, ih]

/-- The exponent suffix of a float literal: optional sign, then digits. -/
def parseExp (cs : List Char) : Option ℤ :=
  match cs with
  | '-' :: r => if r ≠ [] ∧ allDigits r then some (-(digitsVal r : ℤ)) else none
  | '+' :: r => if r ≠ [] ∧ allDigits r then some ((digitsVal r : ℤ)) else none
  | r => if r ≠ [] ∧ allDigits r then some ((digitsVal r : ℤ)) else none

/-- The unsigned mantissa of a decimal literal: digits with at most one period,
at least one digit overall. -/
def parseMantissa (cs : List Char) : Option ℚ :=
  let s := splitAtFirst (fun c => decide (c = '.')) cs
  match s.2 with
  | none => if s.1 ≠ [] ∧ allDigits s.1 then some ((digitsVal s.1 : ℚ)) else none
  | some fp =>
    if (s.1 ≠ [] ∨ fp ≠ []) ∧ allDigits s.1 ∧ allDigits fp then
      some ((digitsVal s.1 : ℚ) + (digitsVal fp : ℚ) / ((10 : ℚ) ^ fp.length))
    else none

/-- Parse of a plain decimal literal (optional sign, digits, optional fraction,
optional exponent), as accepted by `pandas.to_numeric` on a cleaned string;
anything else is `none` (the `errors="coerce"` NaN). IEEE `inf`/`nan` literals
are not modelled and also map to `none`. -/
def parseDecimal (cs : List Char) : Option ℚ :=
  let sr : ℚ × List Char :=
    match cs with
    | '-' :: r => (-1, r)
    | '+' :: r => (1, r)
    | r => (1, r)
  let me := splitAtFirst (fun c => decide (c = 'e' ∨ c = 'E')) sr.2
  match me.2 with
  | none => (parseMantissa me.1).map (fun m => sr.1 * m)
  | some e =>
    match parseMantissa me.1, parseExp e with
    | some m, some ex => some (sr.1 * m * (10 : ℚ) ^ ex)
    | _, _ => none

/-- `converter._parse_numeric` on one cell: normalize, then parse; `none` is the
coerced NaN. -/
def parseNumeric (s : String) : Option ℚ :=
  parseDecimal (normalizeNumeric s.data)

/-! ## Date Normalizer (pandas `to_datetime(dayfirst=True, format="mixed")`) -/

/-- Gregorian leap year test. -/
def isLeapYear (y : ℕ) : Bool :=
  decide (y % 4 = 0) && (decide (y % 100 ≠ 0) || decide (y % 400 = 0))

/-- Days in a Gregorian month. -/
def daysInMonth (y m : ℕ) : ℕ :=
  if m = 2 then (if isLeapYear y then 29 else 28)
  else if m = 4 ∨ m = 6 ∨ m = 9 ∨ m = 11 then 30
  else 31

/-- Validity of a (year, month, day) triple as a calendar date. -/
def validDate (y m d : ℕ) : Bool :=
  decide (1 ≤ m) && decide (m ≤ 12) && decide (1 ≤ d) && decide (d ≤ daysInMonth y m)

/-- A chunk of a date string: all digits, nonempty. -/
def parseChunkNat (cs : List Char) : Option ℕ :=
  if cs ≠ [] ∧ allDigits cs then some (digitsVal cs) else none

/-- Resolution of a separated `a sep b sep year` date: day-first reading
(day = `a`, month = `b`) preferred, month-first as fallback.
Modelled from pandas `to_datetime(dayfirst=True)` behaviour: `dayfirst` is a
preference, and an impossible day-first reading falls back to month-first. -/
def resolveDayFirst (a b y : ℕ) : Option CalDate :=
  if validDate y b a then some ⟨y, b, a⟩
  else if validDate y a b then some ⟨y, a, b⟩
  else none

/-- ISO `YYYY-MM-DD` parse (the dash-separated branch of the mixed parser,
also pandas' default read of the strings `strftime("%Y-%m-%d")` emits). -/
def parseIsoDate (s : String) : Option CalDate :=
  match splitOnChar '-' s.data with
  | [ys, ms, ds] =>
    match parseChunkNat ys, parseChunkNat ms, parseChunkNat ds with
    | some y, some m, some d =>
      if ys.length = 4 ∧ validDate y m d then some ⟨y, m, d⟩ else none
    | _, _, _ => none
  | _ => none

/-- Modelled from pandas `to_datetime(dayfirst=True, format="mixed")` (the call
in `converter.transform_data`), for the textual layouts the data carries:
ISO (`YYYY-MM-DD`), slash-separated (`DD/MM/YYYY`), and dotted (`DD.MM.YYYY`),
inferred per element, with the day-before-month preference for the separated
layouts.  Anything else fails (pandas raises; the caller wraps this in the
batch-level error of `transformData`). -/
def parseDateMixed (s : String) : Option CalDate :=
  match parseIsoDate s with
  | some d => some d
  | none =>
    match splitOnChar '/' s.data with
    | [as, bs, ys] =>
      match parseChunkNat as, parseChunkNat bs, parseChunkNat ys with
      | some a, some b, some y =>
        if ys.length = 4 then resolveDayFirst a b y else none
      | _, _, _ => none
    | _ =>
      match splitOnChar '.' s.data with
      | [as, bs, ys] =>
        match parseChunkNat as, parseChunkNat bs, parseChunkNat ys with
        | some a, some b, some y =>
          if ys.length = 4 then resolveDayFirst a b y else none
        | _, _, _ => none
      | _ => none

/-- strftime `"%Y-%m-%d"` rendering. -/
def dateIso (d : CalDate) : String :=
  String.mk (render4 d.year ++ '-' :: render2 d.month ++ '-' :: render2 d.day)

/-! ## Date arithmetic (`riksbanken.py`) -/

/-- The previous calendar day, as Python `date - timedelta(days=1)`. -/
def predDate (d : CalDate) : CalDate :=
  if d.day ≤ 1 then
    if d.month ≤ 1 then ⟨d.year - 1, 12, 31⟩
    else ⟨d.year, d.month - 1, daysInMonth d.year (d.month - 1)⟩
  else ⟨d.year, d.month, d.day - 1⟩

/-- `date - timedelta(days=n)`. -/
def subDays : ℕ → CalDate → CalDate
  | 0, d => d
  | n + 1, d => subDays n (predDate d)

/-- `riksbanken._previous_month_end`: `reference_date.replace(day=1) - timedelta(days=1)`. -/
def previousMonthEnd (referenceDate : CalDate) : CalDate :=
  predDate ⟨referenceDate.year, referenceDate.month, 1⟩

/-! ## FX Rate Resolver (`riksbanken.get_fx_rate`) -/

/-- One observation of the rate series: `{ "date": ..., "value": ... }`,
with a well-formed date. -/
structure Obs where
  date : CalDate
  value : ℚ
deriving DecidableEq, Repr

/-- The JSON body of a service response: an array of observations, a single
observation object, or anything else (malformed). -/
inductive RespBody where
  | arr : List Obs → RespBody
  | obj : Obs → RespBody
  | malformed : RespBody
deriving DecidableEq, Repr

/-- An HTTP response: status code and body. -/
structure Response where
  status : ℕ
  body : RespBody
deriving DecidableEq, Repr

/-- `riksbanken.BASE_URL`. -/
def BASE_URL : String := "https://api.riksbank.se/swea/v1"

/-- `riksbanken.CURRENCY_SERIES`, in source order. -/
def CURRENCY_SERIES : List (String × String) :=
  [("EUR", "SEKEURPMI"), ("USD", "SEKUSDPMI"), ("GBP", "SEKGBPPMI"),
   ("NOK", "SEKNOKPMI"), ("DKK", "SEKDKKPMI"), ("CHF", "SEKCHFPMI"),
   ("JPY", "SEKJPYPMI"), ("CAD", "SEKCADPMI"), ("AUD", "SEKAUDPMI"),
   ("NZD", "SEKNZDPMI"), ("PLN", "SEKPLNPMI"), ("CZK", "SEKCZKPMI"),
   ("HUF", "SEKHUFPMI"), ("TRY", "SEKTRYPMI"), ("CNY", "SEKCNYPMI"),
   ("HKD", "SEKHKDPMI"), ("SGD", "SEKSGDPMI"), ("THB", "SEKTHBPMI"),
   ("KRW", "SEKKRWPMI"), ("INR", "SEKINRPMI")]

/-- `CURRENCY_SERIES.get(code)`. -/
def lookupSeries (code : String) : Option String :=
  (CURRENCY_SERIES.find? (fun p => p.1 == code)).map (·.2)

/-- Python `str.upper()` (ASCII case mapping suffices for the currency codes). -/
def upperString (s : String) : String := String.mk (s.data.map Char.toUpper)

/-- The loop of `get_fx_rate` lines 81–87: keep the last observation dated on
or before `monthEnd`, stopping at the first later one. -/
def scanBest (monthEnd : CalDate) : Option Obs → List Obs → Option Obs
  | best, [] => best
  | best, o :: rest =>
    if dateLe o.date monthEnd then scanBest monthEnd (some o) rest else best

/-- The URL `get_fx_rate` builds for a series id and reference date. -/
def requestUrl (seriesId : String) (referenceDate : CalDate) : String :=
  BASE_URL ++ "/Observations/" ++ seriesId ++ "/" ++
    dateIso (subDays 10 (previousMonthEnd referenceDate))

/-- `riksbanken.get_fx_rate`, with the HTTP layer passed in as `svc`
(the response the network returns for a URL).  Returns `(rate, rateDate)`
or `(none, none)` on any failure. -/
def getFxRate (currency : String) (referenceDate : CalDate)
    (svc : String → Response) : Option ℚ × Option CalDate :=
  match lookupSeries (upperString currency) with
  | none => (none, none)
  | some seriesId =>
    let monthEnd := previousMonthEnd referenceDate
    let resp := svc (requestUrl seriesId referenceDate)
    if resp.status = 200 then
      match resp.body with
      | RespBody.arr data =>
        if data.length > 0 then
          match scanBest monthEnd none data with
          | some best => (some best.value, some best.date)
          | none => (none, none)
        else (none, none)
      | _ => (none, none)
    else (none, none)

/-- The URLs `get_fx_rate` requests: none when the currency is unknown
(the early return on line 68 precedes any network access), exactly one
otherwise. -/
def getFxRateRequests (currency : String) (referenceDate : CalDate) : List String :=
  match lookupSeries (upperString currency) with
  | none => []
  | some seriesId => [requestUrl seriesId referenceDate]

/-! ## Record Transformer (`converter.transform_data`) -/

/-- A raw row: cells by column name; an absent entry is a pandas `NaN` cell. -/
abbrev Row : Type := List (String × String)

/-- Cell access; `astype(str)` turns a `NaN` cell into the string `"nan"`. -/
def cellStr (r : Row) (col : String) : String :=
  match (List.find? (fun p => p.1 == col) r).map (·.2) with
  | some s => s
  | none => "nan"

/-- The validated column mapping (`Datum`, `Beskrivning`, `Belopp` required;
`Fee` optional — `none` also covers the falsy empty string the code tests
with `mapping["Fee"]`). -/
structure Mapping where
  datum : String
  beskrivning : String
  belopp : String
  fee : Option String

/-- A row of the transformed DataFrame: `Datum` (strftime string),
`Beskrivning`, `Belopp` (`none` is the float `NaN`). -/
structure CanonRecord where
  datum : String
  beskrivning : String
  belopp : Option ℚ
deriving DecidableEq, Repr

/-- The `Belopp` of one row (`converter.py` lines 46–55): parse the amount
(NaN on failure); when a fee column is mapped subtract `|fillna(0) fee|`; when
a rate is supplied and `fx_rate != 1.0`, multiply.  NaN propagates through
subtraction and multiplication. -/
def rowAmount (r : Row) (m : Mapping) (fxRate : Option ℚ) : Option ℚ :=
  let belopp := parseNumeric (cellStr r m.belopp)
  let belopp :=
    match m.fee with
    | some feeCol => belopp.map (fun a => a - |(parseNumeric (cellStr r feeCol)).getD 0|)
    | none => belopp
  match fxRate with
  | some rate => if rate ≠ 1 then belopp.map (fun a => a * rate) else belopp
  | none => belopp

/-- Monadic map over `Option`, by structural recursion (the columnwise pandas
conversion: the first failure fails the whole column). -/
def mapOpt {α β : Type} (f : α → Option β) : List α → Option (List β)
  | [] => some []
  | a :: l =>
    match f a, mapOpt f l with
    | some b, some bs => some (b :: bs)
    | _, _ => none

/-- The record built for one row once its date is known. -/
def mkRecord (m : Mapping) (fxRate : Option ℚ) (r : Row) (d : CalDate) : CanonRecord :=
  { datum := dateIso d
    beskrivning := String.mk (stripChars (cellStr r m.beskrivning).data)
    belopp := rowAmount r m fxRate }

/-- `converter.transform_data`.  `pd.to_datetime` without `errors="coerce"`
raises on the first unparsable date, which aborts the whole call: that is the
`Except.error` branch.  Amounts, by contrast, are coerced to NaN per cell. -/
def transformData (df : List Row) (m : Mapping) (fxRate : Option ℚ) :
    Except String (List CanonRecord) :=
  match mapOpt (fun r => parseDateMixed (cellStr r m.datum)) df with
  | none => Except.error "time data does not match any format"
  | some dates => Except.ok (List.zipWith (mkRecord m fxRate) df dates)

/-- Whether an `Except` is a success (no exception was raised). -/
def exceptIsOk {ε α : Type} : Except ε α → Bool
  | Except.ok _ => true
  | Except.error _ => false

/-! ## Canonical Serializer (`converter.export_csv`) -/

/-- UTF-8 encoding of one character (code point to 1–4 bytes). -/
def utf8Char (c : Char) : List ℕ :=
  let n := c.toNat
  if n < 128 then [n]
  else if n < 2048 then [192 + n / 64, 128 + n % 64]
  else if n < 65536 then [224 + n / 4096, 128 + (n / 64) % 64, 128 + n % 64]
  else [240 + n / 262144, 128 + (n / 4096) % 64, 128 + (n / 64) % 64, 128 + n % 64]

/-- `str.encode("utf-8")`. -/
def utf8Str (l : List Char) : List ℕ := (l.map utf8Char).flatten

/-- Rounding to the nearest integer, ties to even (the rounding of Python's
fixed-point float formatting). -/
def roundHalfEven (x : ℚ) : ℤ :=
  let f := x.floor
  let r := x - (f : ℚ)
  if r < 1/2 then f
  else if 1/2 < r then f + 1
  else if f % 2 = 0 then f else f + 1

/-- Python `f"{x:.2f}"` on a (finite) float, modelled on `ℚ`: round `x * 100`
to an integer (ties to even), render sign, integer digits, period, two
fractional digits.  (`ℚ` has no negative zero, so `-0.001` renders `0.00`
where CPython prints `-0.00`; no claim depends on this.) -/
def fmtFixed2 (q : ℚ) : List Char :=
  (if roundHalfEven (q * 100) < 0 then ['-'] else []) ++
    natDigits ((roundHalfEven (q * 100)).natAbs / 100) ++
      '.' :: render2 ((roundHalfEven (q * 100)).natAbs % 100)

/-- The rendering of the `Belopp` cell: a float formats as `fmtFixed2`, the
`NaN` of an unparsable amount formats as `"nan"`. -/
def beloppChars (b : Option ℚ) : List Char :=
  match b with
  | some q => fmtFixed2 q
  | none => ['n', 'a', 'n']

/-- One data line of `export_csv` (line 68–72): `datum;beskrivning;belopp`,
the description with semicolons replaced by commas then cut to 100 characters,
the amount formatted `:.2f` with the period replaced by a comma. -/
def lineChars (rec : CanonRecord) : List Char :=
  rec.datum.data ++ ';' ::
    ((replaceChar ';' ',' rec.beskrivning.data).take 100 ++ ';' ::
      replaceChar '.' ',' (beloppChars rec.belopp))

/-- The header line of `export_csv`. -/
def headerLine : List Char := "Datum;Ingående saldo-Beskrivning;Belopp".data

/-- The trailing sentinel line of `export_csv`. -/
def sentinelLine : List Char := "This will not be imported".data

/-- Windows line terminator. -/
def crlf : List Char := ['\r', '\n']

/-- The line list `export_csv` builds: header, data lines, sentinel. -/
def exportLines (df : List CanonRecord) : List (List Char) :=
  headerLine :: (df.map lineChars ++ [sentinelLine])

/-- Python `sep.join(lines)`. -/
def joinSep (sep : List Char) : List (List Char) → List Char
  | [] => []
  | [l] => l
  | l :: l2 :: t => l ++ sep ++ joinSep sep (l2 :: t)

/-- `converter.export_csv`: BOM bytes, then the UTF-8 encoding of the lines
joined by CRLF with one trailing CRLF. -/
def exportCsv (df : List CanonRecord) : List ℕ :=
  [239, 187, 191] ++ utf8Str (joinSep crlf (exportLines df) ++ crlf)

/-! ## Range Filter (`app.py` lines 233–245) -/

/-- The date filter of `app.py`: keep records whose `Datum`, read back as a
date, lies in the inclusive interval; a `NaT` (unreadable date) compares
false on both bounds and is dropped. -/
def dateRangeFilter (dateFrom dateTo : CalDate) (recs : List CanonRecord) :
    List CanonRecord :=
  recs.filter (fun r =>
    match parseIsoDate r.datum with
    | some d => dateLe dateFrom d && dateLe d dateTo
    | none => false)

/-! ## Helper lemmas -/

theorem mapOpt_length {α β : Type} (f : α → Option β) :
    ∀ (l : List α) (res : List β), mapOpt f l = some res → res.length = l.length := by
  intro l
  induction l with
  | nil => intro res h; cases h; rfl
  | cons a l ih =>
    intro res h
    unfold mapOpt at h
    cases hf : f a with
    | none => rw [hf] at h; cases h
    | some b =>
      rw [hf] at h
      cases hm : mapOpt f l with
      | none => rw [hm] at h; cases h
      | some bs =>
        rw [hm] at h
        cases h
        simp [ih bs hm]

theorem mapOpt_some_of_isSome {α β : Type} (f : α → Option β) :
    ∀ l : List α, (∀ a ∈ l, (f a).isSome = true) →
      ∃ res, mapOpt f l = some res := by
  intro l
  induction l with
  | nil => exact fun _ => ⟨[], rfl⟩
  | cons a l ih =>
    intro h
    obtain ⟨b, hb⟩ := Option.isSome_iff_exists.mp (h a (List.mem_cons_self a l))
    obtain ⟨res, hres⟩ := ih (fun x hx => h x (List.mem_cons_of_mem a hx))
    exact ⟨b :: res, by simp [mapOpt, hb, hres]⟩

theorem mapOpt_get {α β : Type} (f : α → Option β) :
    ∀ (l : List α) (res : List β), mapOpt f l = some res →
      ∀ (i : ℕ) (hi : i < l.length) (hri : i < res.length),
        f (l.get ⟨i, hi⟩) = some (res.get ⟨i, hri⟩) := by
  intro l
  induction l with
  | nil => intro res h i hi; cases hi
  | cons a l ih =>
    intro res h i hi hri
    unfold mapOpt at h
    cases hf : f a with
    | none => rw [hf] at h; cases h
    | some b =>
      rw [hf] at h
      cases hm : mapOpt f l with
      | none => rw [hm] at h; cases h
      | some bs =>
        rw [hm] at h
        cases h
        cases i with
        | zero => simpa using hf
        | succ j => exact ih bs hm j (Nat.lt_of_succ_lt_succ hi) (Nat.lt_of_succ_lt_succ hri)

theorem zipWith_get {α β γ : Type} (f : α → β → γ) :
    ∀ (l1 : List α) (l2 : List β) (i : ℕ) (h : i < (List.zipWith f l1 l2).length)
      (h1 : i < l1.length) (h2 : i < l2.length),
      (List.zipWith f l1 l2).get ⟨i, h⟩ = f (l1.get ⟨i, h1⟩) (l2.get ⟨i, h2⟩) := by
  intro l1
  induction l1 with
  | nil => intro l2 i h h1; cases h1
  | cons a l1 ih =>
    intro l2 i h h1 h2
    cases l2 with
    | nil => cases h2
    | cons b l2 =>
      cases i with
      | zero => rfl
      | succ j =>
        exact ih l2 j (Nat.lt_of_succ_lt_succ h) (Nat.lt_of_succ_lt_succ h1)
          (Nat.lt_of_succ_lt_succ h2)

theorem scanBest_mem (monthEnd : CalDate) :
    ∀ (l : List Obs) (b : Option Obs) (o : Obs), scanBest monthEnd b l = some o →
      b = some o ∨ (o ∈ l ∧ dateLe o.date monthEnd = true) := by
  intro l
  induction l with
  | nil => intro b o h; exact Or.inl h
  | cons x rest ih =>
    intro b o h
    unfold scanBest at h
    by_cases hx : dateLe x.date monthEnd = true
    · rw [if_pos hx] at h
      rcases ih (some x) o h with h1 | h2
      · cases h1
        exact Or.inr ⟨List.mem_cons_self x rest, hx⟩
      · exact Or.inr ⟨List.mem_cons_of_mem x h2.1, h2.2⟩
    · rw [if_neg hx] at h
      exact Or.inl h

theorem scanBest_isSome (monthEnd : CalDate) :
    ∀ (l : List Obs) (x : Obs), (scanBest monthEnd (some x) l).isSome = true := by
  intro l
  induction l with
  | nil => intro x; rfl
  | cons y rest ih =>
    intro x
    unfold scanBest
    by_cases hy : dateLe y.date monthEnd = true
    · rw [if_pos hy]; exact ih y
    · rw [if_neg hy]; rfl

theorem scanBest_max (monthEnd : CalDate) :
    ∀ (l : List Obs) (b : Option Obs) (o : Obs),
      List.Pairwise (fun u v => dateLe u.date v.date = true) l →
      scanBest monthEnd b l = some o →
      ∀ p ∈ l, dateLe p.date monthEnd = true → dateLe p.date o.date = true := by
  intro l
  induction l with
  | nil => intro b o _ _ p hp; cases hp
  | cons x rest ih =>
    intro b o hsort h p hp hpm
    rw [List.pairwise_cons] at hsort
    unfold scanBest at h
    by_cases hx : dateLe x.date monthEnd = true
    · rw [if_pos hx] at h
      rcases List.mem_cons.mp hp with hpx | hpr
      · rcases scanBest_mem monthEnd rest (some x) o h with h1 | h2
        · cases h1; rw [hpx]; exact dateLe_refl _
        · rw [hpx]; exact hsort.1 o h2.1
      · exact ih (some x) o hsort.2 h p hpr hpm
    · rw [if_neg hx] at h
      rcases List.mem_cons.mp hp with hpx | hpr
      · subst hpx; exact absurd hpm hx
      · exact absurd (dateLe_trans (hsort.1 p hpr) hpm) hx

theorem scanBest_some_of_exists (monthEnd : CalDate) :
    ∀ (l : List Obs) (b : Option Obs),
      List.Pairwise (fun u v => dateLe u.date v.date = true) l →
      (∃ o ∈ l, dateLe o.date monthEnd = true) →
      ∃ o, scanBest monthEnd b l = some o := by
  intro l
  induction l with
  | nil => intro b _ hex; simp at hex
  | cons x rest ih =>
    intro b hsort hex
    rw [List.pairwise_cons] at hsort
    unfold scanBest
    by_cases hx : dateLe x.date monthEnd = true
    · rw [if_pos hx]
      exact Option.isSome_iff_exists.mp (scanBest_isSome monthEnd rest x)
    · rw [if_neg hx]
      obtain ⟨o, ho, hom⟩ := hex
      rcases List.mem_cons.mp ho with hox | hor
      · subst hox; exact absurd hom hx
      · exact absurd (dateLe_trans (hsort.1 o hor) hom) hx

theorem replaceChar_append (a b : Char) (l1 l2 : List Char) :
    replaceChar a b (l1 ++ l2) = replaceChar a b l1 ++ replaceChar a b l2 :=
  List.map_append _ l1 l2

theorem replaceChar_of_not_mem {a : Char} (b : Char) {l : List Char} (h : a ∉ l) :
    replaceChar a b l = l := by
  induction l with
  | nil => rfl
  | cons c l ih =>
    rw [List.mem_cons, not_or] at h
    simp [replaceChar, List.map_cons, Ne.symm h.1]
    simpa [replaceChar] using ih h.2

theorem not_mem_replaceChar {a b : Char} (hab : a ≠ b) (l : List Char) :
    a ∉ replaceChar a b l := by
  intro hm
  rcases List.mem_map.mp hm with ⟨c, _, hc⟩
  by_cases hca : c = a
  · rw [if_pos hca] at hc; exact hab hc.symm
  · rw [if_neg hca] at hc; exact hca hc

theorem not_mem_natDigits_of_not_digit {c : Char} (h : c.isDigit = false) (n : ℕ) :
    c ∉ natDigits n := by
  intro hm
  have := natDigits_all_digits n c hm
  rw [h] at this
  cases this

theorem not_mem_render2_of_not_digit {c : Char} (h : c.isDigit = false) (n : ℕ) :
    c ∉ render2 n := by
  intro hm
  have hd : c.isDigit = true := by
    rcases List.mem_cons.mp hm with h1 | hm2
    · rw [h1]; exact digitChar_isDigit _
    · rcases List.mem_cons.mp hm2 with h2 | h3
      · rw [h2]; exact digitChar_isDigit _
      · cases h3
  rw [h] at hd
  cases hd

theorem joinSep_terminated (sep : List Char) :
    ∀ ls : List (List Char), ls ≠ [] →
      joinSep sep ls ++ sep = (ls.map (fun l => l ++ sep)).flatten := by
  intro ls
  induction ls with
  | nil => intro h; cases h rfl
  | cons l t ih =>
    intro _
    cases t with
    | nil => simp [joinSep]
    | cons l2 t2 =>
      rw [joinSep, List.map_cons, List.flatten_cons, ← ih (by simp), List.append_assoc,
        List.append_assoc]

/-! ## Claim theorems -/

/-- C4: for every numeric string using comma decimals, regular/non-breaking
space separators, or Unicode minus / en-dash sign glyphs, `_parse_numeric`
yields exactly the value of the equivalent plain-ASCII representation (which
is the normalized string itself), with the same sign; illustrated on the
spec's own examples. -/
theorem numeric_ascii_equivalence :
    (∀ s : String, parseNumeric (String.mk (normalizeNumeric s.data)) = parseNumeric s)
    ∧ parseNumeric "1 234,56" = parseNumeric "1234.56"
    ∧ parseNumeric "1 234,56" = parseNumeric "1234.56"
    ∧ parseNumeric "−5,00" = parseNumeric "-5.00"
    ∧ parseNumeric "–5,00" = parseNumeric "-5.00"
    ∧ (parseNumeric "1234.56").isSome = true
    ∧ (parseNumeric "-5.00").isSome = true := by
  refine ⟨fun s => ?_, rfl, rfl, rfl, rfl, rfl, rfl⟩
  show parseDecimal (normalizeNumeric (normalizeNumeric s.data)) =
    parseDecimal (normalizeNumeric s.data)
  rw [normalizeNumeric_idem]

/-- C10: a currency code outside `CURRENCY_SERIES` yields `(None, None)` with
no network request, for every reference date and every behaviour of the
external service. -/
theorem unknown_currency_not_found (currency : String)
    (h : lookupSeries (upperString currency) = none)
    (d : CalDate) (svc : String → Response) :
    getFxRate currency d svc = (none, none) ∧ getFxRateRequests currency d = [] := by
  constructor
  · unfold getFxRate; rw [h]
  · unfold getFxRateRequests; rw [h]

theorem unknown_currency_not_found_witness :
    getFxRate "ZZZ" ⟨2024, 7, 15⟩
        (fun _ => ⟨200, RespBody.arr [⟨⟨2024, 6, 28⟩, 10⟩]⟩) = (none, none)
    ∧ getFxRateRequests "ZZZ" ⟨2024, 7, 15⟩ = [] :=
  unknown_currency_not_found "ZZZ" (by decide) ⟨2024, 7, 15⟩ _

/-- C7 counterexample: a 200 response consisting of a single JSON object with
a `value` field, dated on or before the month-end, is NOT accepted:
`get_fx_rate` requires `isinstance(data, list)` and returns `(None, None)`. -/
theorem single_object_response_counterexample :
    getFxRate "EUR" ⟨2024, 7, 15⟩
        (fun _ => ⟨200, RespBody.obj ⟨⟨2024, 6, 28⟩, 114325 / 10000⟩⟩) = (none, none)
    ∧ dateLe ⟨2024, 6, 28⟩ (previousMonthEnd ⟨2024, 7, 15⟩) = true
    ∧ (none, none) ≠
        ((some (114325 / 10000 : ℚ), some (⟨2024, 6, 28⟩ : CalDate)) :
          Option ℚ × Option CalDate) := by
  refine ⟨by decide, by decide, by decide⟩

/-- C7 amended: `get_fx_rate` only accepts JSON arrays; a 200 response whose
body is a single observation object yields `(None, None)` for every currency
and reference date. -/
theorem single_object_response_rejected (currency : String) (d : CalDate) (o : Obs) :
    getFxRate currency d (fun _ => ⟨200, RespBody.obj o⟩) = (none, none) := by
  unfold getFxRate
  cases h : lookupSeries (upperString currency) <;> simp

/-- C8: the separated-date resolution prefers the day-before-month reading
whenever both readings are valid, and the ISO, slash and dotted layouts are
all accepted by the mixed parser: "03/04/2024" is 3 April 2024. -/
theorem date_dayfirst_preference :
    (∀ a b y : ℕ, validDate y b a = true → validDate y a b = true →
      resolveDayFirst a b y = some ⟨y, b, a⟩)
    ∧ parseDateMixed "03/04/2024" = some ⟨2024, 4, 3⟩
    ∧ parseDateMixed "2024-04-03" = some ⟨2024, 4, 3⟩
    ∧ parseDateMixed "03.04.2024" = some ⟨2024, 4, 3⟩ := by
  refine ⟨fun a b y h1 _ => ?_, by decide, by decide, by decide⟩
  unfold resolveDayFirst
  rw [if_pos h1]

theorem date_dayfirst_preference_witness :
    validDate 2024 4 3 = true ∧ validDate 2024 3 4 = true ∧
      resolveDayFirst 3 4 2024 = some ⟨2024, 4, 3⟩ :=
  ⟨by decide, by decide, date_dayfirst_preference.1 3 4 2024 (by decide) (by decide)⟩

/-- C9: the date-range filter keeps exactly the records whose `Datum` reads
back as a valid date `d` with `from ≤ d ≤ to` (inclusive on both ends), in
their original order (the result is a sublist of the input), and records with
an invalid date are excluded. -/
theorem range_filter_spec (dateFrom dateTo : CalDate) (recs : List CanonRecord) :
    List.Sublist (dateRangeFilter dateFrom dateTo recs) recs
    ∧ (∀ rec, rec ∈ dateRangeFilter dateFrom dateTo recs ↔
        rec ∈ recs ∧ ∃ d, parseIsoDate rec.datum = some d ∧
          dateLe dateFrom d = true ∧ dateLe d dateTo = true)
    ∧ (∀ rec, parseIsoDate rec.datum = none →
        rec ∉ dateRangeFilter dateFrom dateTo recs) := by
  refine ⟨List.filter_sublist recs, fun rec => ?_, fun rec h hmem => ?_⟩
  · rw [dateRangeFilter, List.mem_filter]
    constructor
    · rintro ⟨hm, hp⟩
      refine ⟨hm, ?_⟩
      cases hd : parseIsoDate rec.datum with
      | none => rw [hd] at hp; cases hp
      | some d =>
        rw [hd] at hp
        rw [Bool.and_eq_true] at hp
        exact ⟨d, rfl, hp.1, hp.2⟩
    · rintro ⟨hm, d, hd, h1, h2⟩
      refine ⟨hm, ?_⟩
      rw [hd, Bool.and_eq_true]
      exact ⟨h1, h2⟩
  · rw [dateRangeFilter, List.mem_filter, h] at hmem
    cases hmem.2

theorem range_filter_spec_witness :
    parseIsoDate "bad" = none ∧
      (⟨"bad", "c", none⟩ : CanonRecord) ∉
        dateRangeFilter ⟨2024, 1, 10⟩ ⟨2024, 1, 20⟩
          [⟨"2024-01-15", "b", none⟩, ⟨"bad", "c", none⟩] :=
  ⟨rfl, (range_filter_spec ⟨2024, 1, 10⟩ ⟨2024, 1, 20⟩
    [⟨"2024-01-15", "b", none⟩, ⟨"bad", "c", none⟩]).2.2 ⟨"bad", "c", none⟩ rfl⟩

/-- C5: for every dataset, the bytes of `export_csv` begin with the UTF-8
byte-order mark, are exactly the BOM followed by the UTF-8 encoding of every
line terminated by CRLF (so every line, the last included, ends in CRLF), the
first line is the single header, and the last line is the literal sentinel
`This will not be imported`. -/
theorem export_csv_structure (df : List CanonRecord) :
    (exportCsv df).take 3 = [239, 187, 191]
    ∧ exportCsv df =
        [239, 187, 191] ++ utf8Str (((exportLines df).map (fun l => l ++ crlf)).flatten)
    ∧ (exportLines df).head? = some headerLine
    ∧ (exportLines df).getLast? = some sentinelLine := by
  refine ⟨?_, ?_, rfl, ?_⟩
  · rfl
  · unfold exportCsv
    rw [joinSep_terminated crlf (exportLines df) (by simp [exportLines])]
  · show (headerLine :: (df.map lineChars ++ [sentinelLine])).getLast? = some sentinelLine
    rw [← List.cons_append, List.getLast?_concat]

theorem replace_period_fmt (q : ℚ) :
    replaceChar '.' ',' (fmtFixed2 q) =
      ((if roundHalfEven (q * 100) < 0 then ['-'] else []) ++
          natDigits ((roundHalfEven (q * 100)).natAbs / 100)) ++
        ',' :: render2 ((roundHalfEven (q * 100)).natAbs % 100) := by
  unfold fmtFixed2
  rw [replaceChar_append, replaceChar_append]
  rw [replaceChar_of_not_mem ',' (l := if roundHalfEven (q * 100) < 0 then ['-'] else [])
    (by split <;> decide)]
  rw [replaceChar_of_not_mem ',' (not_mem_natDigits_of_not_digit (by decide) _)]
  have h3 : replaceChar '.' ','
      ('.' :: render2 ((roundHalfEven (q * 100)).natAbs % 100)) =
      ',' :: render2 ((roundHalfEven (q * 100)).natAbs % 100) := by
    show List.map _ _ = _
    rw [List.map_cons, if_pos rfl]
    congr 1
    exact replaceChar_of_not_mem ',' (not_mem_render2_of_not_digit (by decide) _)
  rw [h3, List.append_assoc]

/-- C6: every record with a (finite) amount `q` is rendered as the line
`datum;description;amount` in which the description has every semicolon
replaced by a comma and is then cut to at most 100 characters (so the emitted
description contains no semicolon and is at most 100 long), and the amount is
an integer part followed by a comma and exactly two digit characters, with no
comma inside the integer part. -/
theorem export_line_format (rec : CanonRecord) (q : ℚ) (h : rec.belopp = some q) :
    ∃ ipart frac : List Char,
      lineChars rec =
        rec.datum.data ++ ';' ::
          ((replaceChar ';' ',' rec.beskrivning.data).take 100 ++ ';' ::
            (ipart ++ ',' :: frac))
      ∧ ';' ∉ (replaceChar ';' ',' rec.beskrivning.data).take 100
      ∧ ((replaceChar ';' ',' rec.beskrivning.data).take 100).length ≤ 100
      ∧ frac.length = 2
      ∧ (∀ c ∈ frac, c.isDigit = true)
      ∧ ',' ∉ ipart := by
  refine ⟨(if roundHalfEven (q * 100) < 0 then ['-'] else []) ++
      natDigits ((roundHalfEven (q * 100)).natAbs / 100),
    render2 ((roundHalfEven (q * 100)).natAbs % 100), ?_, ?_, ?_, rfl, ?_, ?_⟩
  · unfold lineChars
    rw [h]
    show rec.datum.data ++ ';' ::
        ((replaceChar ';' ',' rec.beskrivning.data).take 100 ++ ';' ::
          replaceChar '.' ',' (fmtFixed2 q)) = _
    rw [replace_period_fmt]
  · intro hm
    exact not_mem_replaceChar (by decide) rec.beskrivning.data
      (List.take_subset 100 _ hm)
  · exact List.length_take_le 100 _
  · intro c hc
    rcases List.mem_cons.mp hc with h1 | hc2
    · rw [h1]; exact digitChar_isDigit _
    · rcases List.mem_cons.mp hc2 with h2 | h3
      · rw [h2]; exact digitChar_isDigit _
      · cases h3
  · intro hm
    rcases List.mem_append.mp hm with h1 | h2
    · revert h1
      split <;> decide
    · exact not_mem_natDigits_of_not_digit (by decide) _ h2

theorem export_line_format_witness :
    ((⟨"2024-01-31", "Coffee", some (-45 : ℚ)⟩ : CanonRecord).belopp = some (-45 : ℚ))
    ∧ ∃ ipart frac : List Char,
        lineChars ⟨"2024-01-31", "Coffee", some (-45 : ℚ)⟩ =
          ("2024-01-31" : String).data ++ ';' ::
            ((replaceChar ';' ',' ("Coffee" : String).data).take 100 ++ ';' ::
              (ipart ++ ',' :: frac))
        ∧ ';' ∉ (replaceChar ';' ',' ("Coffee" : String).data).take 100
        ∧ ((replaceChar ';' ',' ("Coffee" : String).data).take 100).length ≤ 100
        ∧ frac.length = 2
        ∧ (∀ c ∈ frac, c.isDigit = true)
        ∧ ',' ∉ ipart :=
  ⟨rfl, export_line_format ⟨"2024-01-31", "Coffee", some (-45 : ℚ)⟩ (-45) rfl⟩

theorem rowAmount_none {r : Row} {m : Mapping} (fxRate : Option ℚ)
    (h : parseNumeric (cellStr r m.belopp) = none) : rowAmount r m fxRate = none := by
  simp only [rowAmount, h]
  cases m.fee <;> cases fxRate <;> (try split) <;> simp

/-- C1 counterexample: a single row whose `Date` cell is unparsable makes
`transform_data` raise (the `Except.error` branch): no canonical dataset is
returned at all, so the row is not retained with an invalid marker. -/
theorem unparsable_date_aborts_counterexample :
    exceptIsOk (transformData [[("Date", "notadate"), ("Text", "x"), ("Amt", "5")]]
      ⟨"Date", "Text", "Amt", none⟩ none) = false := by decide

/-- C1 amended: only the Amount half of the claim holds.  When every row's
date parses, `transform_data` returns one record per row and a row whose
Amount cell fails to parse is retained with the explicit invalid marker
(`NaN`) in `Belopp`; but a row whose Date cell fails to parse aborts the whole
call with an exception (see the counterexample). -/
theorem unparsable_amount_nonfatal (df : List Row) (m : Mapping) (fxRate : Option ℚ)
    (h : ∀ r ∈ df, (parseDateMixed (cellStr r m.datum)).isSome = true) :
    ∃ recs, transformData df m fxRate = Except.ok recs
      ∧ recs.length = df.length
      ∧ ∀ (i : ℕ) (hi : i < df.length) (hri : i < recs.length),
          parseNumeric (cellStr (df.get ⟨i, hi⟩) m.belopp) = none →
            (recs.get ⟨i, hri⟩).belopp = none := by
  obtain ⟨dates, hdates⟩ :=
    mapOpt_some_of_isSome (fun r => parseDateMixed (cellStr r m.datum)) df h
  have hlen : dates.length = df.length := mapOpt_length _ df dates hdates
  refine ⟨List.zipWith (mkRecord m fxRate) df dates, ?_, ?_, ?_⟩
  · unfold transformData
    rw [hdates]
  · rw [List.length_zipWith, hlen, Nat.min_self]
  · intro i hi hri hnone
    rw [zipWith_get (mkRecord m fxRate) df dates i hri hi (hlen ▸ hi)]
    exact rowAmount_none fxRate hnone

def w1df : List Row :=
  [[("Date", "2024-01-31"), ("Text", "a"), ("Amt", "xx")],
   [("Date", "2024-02-01"), ("Text", "b"), ("Amt", "5")]]

theorem unparsable_amount_nonfatal_witness :
    ∃ recs, transformData w1df ⟨"Date", "Text", "Amt", none⟩ none = Except.ok recs
      ∧ recs.length = w1df.length
      ∧ ∀ (i : ℕ) (hi : i < w1df.length) (hri : i < recs.length),
          parseNumeric (cellStr (w1df.get ⟨i, hi⟩) "Amt") = none →
            (recs.get ⟨i, hri⟩).belopp = none :=
  unparsable_amount_nonfatal w1df ⟨"Date", "Text", "Amt", none⟩ none (by decide)

/-- C3: when a row's Amount parses to `a`, its output `Belopp` is
`(a − |fee|) · rate`, where the fee term is present exactly when a fee column
is mapped (an unparsable or missing fee cell contributing 0, and the parsed
fee taken in absolute value before subtraction, before any FX step), and the
rate factor is the supplied rate, or 1 — i.e. no multiplication — when
`fx_rate` is `None` (a supplied rate of exactly 1 is skipped by the code and
likewise multiplies by 1). -/
theorem transform_amount_formula (df : List Row) (m : Mapping) (fxRate : Option ℚ)
    (recs : List CanonRecord) (h : transformData df m fxRate = Except.ok recs)
    (i : ℕ) (hi : i < df.length) (hri : i < recs.length) (a : ℚ)
    (ha : parseNumeric (cellStr (df.get ⟨i, hi⟩) m.belopp) = some a) :
    (recs.get ⟨i, hri⟩).belopp =
      some ((a - (match m.fee with
                  | some feeCol =>
                    |(parseNumeric (cellStr (df.get ⟨i, hi⟩) feeCol)).getD 0|
                  | none => 0)) * fxRate.getD 1) := by
  unfold transformData at h
  cases hm : mapOpt (fun r => parseDateMixed (cellStr r m.datum)) df with
  | none => rw [hm] at h; cases h
  | some dates =>
    rw [hm] at h
    cases h
    have hlen : dates.length = df.length := mapOpt_length _ df dates hm
    rw [zipWith_get (mkRecord m fxRate) df dates i hri hi (hlen ▸ hi)]
    show rowAmount (df.get ⟨i, hi⟩) m fxRate = _
    simp only [rowAmount, ha]
    cases m.fee <;> cases fxRate <;> simp <;>
      (intro h1; simp [h1])

def w3row : Row := [("Date", "2024-01-31"), ("Text", "a"), ("Amt", "100,50"), ("F", "2")]

def w3df : List Row := [w3row]

def w3m : Mapping := ⟨"Date", "Text", "Amt", some "F"⟩

def w3recs : List CanonRecord := [mkRecord w3m (some 10) w3row ⟨2024, 1, 31⟩]

theorem transform_amount_formula_witness :
    (w3recs.get ⟨0, by decide⟩).belopp =
      some ((((parseNumeric (cellStr (w3df.get ⟨0, by decide⟩) "Amt")).get rfl) -
          |(parseNumeric (cellStr (w3df.get ⟨0, by decide⟩) "F")).getD 0|) *
        ((some (10 : ℚ)).getD 1)) :=
  transform_amount_formula w3df w3m (some 10) w3recs rfl 0 (by decide) (by decide)
    ((parseNumeric (cellStr (w3df.get ⟨0, by decide⟩) "Amt")).get rfl)
    (@Option.some_get ℚ (parseNumeric (cellStr (w3df.get ⟨0, by decide⟩) "Amt")) rfl).symm

/-- C2: `get_fx_rate` computes the month end as the last day of the month
preceding the reference date, requests the series exactly once from
`monthEnd - 10 days`, and — when the service returns status 200 with an
ascending array of observations — returns the value and date of the latest
observation dated on or before the month end whenever one exists; in
particular for reference date 2024-07-15 (month end 2024-06-30, window start
2024-06-20) with observations dated 2024-06-28 and 2024-07-02 it returns the
2024-06-28 observation. -/
theorem fx_month_end_selection
    (currency seriesId : String)
    (hs : lookupSeries (upperString currency) = some seriesId)
    (referenceDate : CalDate) (svc : String → Response) (data : List Obs)
    (hresp : svc (requestUrl seriesId referenceDate) = ⟨200, RespBody.arr data⟩)
    (hsorted : List.Pairwise (fun u v => dateLe u.date v.date = true) data) :
    previousMonthEnd referenceDate =
      (if referenceDate.month ≤ 1 then ⟨referenceDate.year - 1, 12, 31⟩
       else (⟨referenceDate.year, referenceDate.month - 1,
         daysInMonth referenceDate.year (referenceDate.month - 1)⟩ : CalDate))
    ∧ getFxRateRequests currency referenceDate = [requestUrl seriesId referenceDate]
    ∧ ((∃ o ∈ data, dateLe o.date (previousMonthEnd referenceDate) = true) →
        ∃ o ∈ data, dateLe o.date (previousMonthEnd referenceDate) = true
          ∧ (∀ p ∈ data, dateLe p.date (previousMonthEnd referenceDate) = true →
              dateLe p.date o.date = true)
          ∧ getFxRate currency referenceDate svc = (some o.value, some o.date))
    ∧ (∀ q1 q2 : ℚ,
        getFxRate "EUR" ⟨2024, 7, 15⟩
            (fun _ => ⟨200, RespBody.arr [⟨⟨2024, 6, 28⟩, q1⟩, ⟨⟨2024, 7, 2⟩, q2⟩]⟩) =
          (some q1, some ⟨2024, 6, 28⟩))
    ∧ previousMonthEnd ⟨2024, 7, 15⟩ = ⟨2024, 6, 30⟩
    ∧ subDays 10 (previousMonthEnd ⟨2024, 7, 15⟩) = ⟨2024, 6, 20⟩ := by
  refine ⟨?_, ?_, ?_, fun q1 q2 => rfl, by decide, by decide⟩
  · simp [previousMonthEnd, predDate]
  · unfold getFxRateRequests
    rw [hs]
  · intro hex
    obtain ⟨o, ho⟩ :=
      scanBest_some_of_exists (previousMonthEnd referenceDate) data none hsorted hex
    have hmem := (scanBest_mem _ data none o ho).resolve_left (by simp)
    refine ⟨o, hmem.1, hmem.2, scanBest_max _ data none o hsorted ho, ?_⟩
    unfold getFxRate
    rw [hs]
    have hlen : data.length > 0 := List.length_pos.mpr (List.ne_nil_of_mem hmem.1)
    simp [hresp, hlen, ho]

def w2svc : String → Response :=
  fun _ => ⟨200, RespBody.arr [⟨⟨2024, 6, 28⟩, 10⟩, ⟨⟨2024, 7, 2⟩, 11⟩]⟩

theorem fx_month_end_selection_witness :
    getFxRate "EUR" ⟨2024, 7, 15⟩
        (fun _ => ⟨200, RespBody.arr [⟨⟨2024, 6, 28⟩, 10⟩, ⟨⟨2024, 7, 2⟩, 11⟩]⟩) =
      (some 10, some ⟨2024, 6, 28⟩) :=
  (fx_month_end_selection "EUR" "SEKEURPMI" (by decide) ⟨2024, 7, 15⟩ w2svc
    [⟨⟨2024, 6, 28⟩, 10⟩, ⟨⟨2024, 7, 2⟩, 11⟩] rfl (by decide)).2.2.2.1 10 11
